import Mathlib

/-!
Shallow embedding of the tweet-ingestion and media-resolution pipeline of the
crypto-twitter-tracker bot (`src/index.js`), together with proofs of the
specification's testable properties.

Modelling conventions:
* timestamps are `Int` milliseconds since the epoch; a missing or unparsable
  `created_at` is `none` (in JS `new Date(undefined).getTime()` is `NaN`, and
  every comparison against `NaN` is false, which is exactly the `none` branch);
* the seen-ID map `lastProcessedIds` is a `List String` used only through
  membership, mirroring a JS object used as a set;
* network calls are an oracle (`Net`): `Except.error` models the call throwing
  after `withRetry` exhausted its attempts;
* per-post work is recorded as an event trace (`Ev`): marking an ID as seen,
  plus the network side effects (detail fetch, media download, channel sends)
  attributed to the post that triggered them.
-/

namespace TwitterBot

/-- Checks whether `pat` is an initial segment of `s`. -/
def charsLeading : List Char → List Char → Bool
  | [], _ => true
  | _ :: _, [] => false
  | a :: as, b :: bs => a == b && charsLeading as bs

/-- Checks whether `pat` occurs contiguously inside `s`. -/
def charsInside (pat : List Char) : List Char → Bool
  | [] => charsLeading pat []
  | c :: rest => charsLeading pat (c :: rest) || charsInside pat rest

/-- Models JavaScript `s.includes(pat)`. -/
def strContains (s pat : String) : Bool :=
  charsInside pat.toList s.toList

/-- Models JavaScript `a || b` on two optional strings, where the empty string
is falsy. -/
def jsOrS : Option String → Option String → Option String
  | some s, b => if s = "" then b else some s
  | none, b => b

/-- Models JavaScript truthiness of an optional string (`undefined` and `""`
are falsy). -/
def optTruthy : Option String → Bool
  | some s => s ≠ ""
  | none => false

/-- One entry of a `variants` array.  The detail-endpoint video objects carry
`type`/`src`/`url`; the `video_info` objects carry `content_type`/`bitrate`/
`url`.  Both shapes are fields of one duck-typed JS object, so one structure
with optional fields models both. -/
structure Variant where
  type : Option String := none
  src : Option String := none
  url : Option String := none
  content_type : Option String := none
  bitrate : Option Nat := none
  deriving DecidableEq

structure VideoInfo where
  variants : List Variant
  deriving DecidableEq

structure VideoObj where
  variants : List Variant
  deriving DecidableEq

structure MediaDetailEntry where
  type : Option String := none
  video_info : Option VideoInfo := none
  media_url_https : Option String := none
  deriving DecidableEq

structure Photo where
  url : Option String := none
  deriving DecidableEq

structure ParentTweet where
  video : Option VideoObj := none
  deriving DecidableEq

/-- The detail record returned by the per-tweet endpoint (`fetchSingleTweet`). -/
structure DetailedTweet where
  video : Option VideoObj := none
  parent : Option ParentTweet := none
  mediaDetails : Option (List MediaDetailEntry) := none
  photos : Option (List Photo) := none
  deriving DecidableEq

structure MediaEntity where
  type : Option String := none
  video_info : Option VideoInfo := none
  media_url_https : Option String := none
  media_url : Option String := none
  deriving DecidableEq

structure UrlImage where
  url : String
  deriving DecidableEq

structure UrlEntity where
  display_url : Option String := none
  expanded_url : Option String := none
  images : Option (List UrlImage) := none
  deriving DecidableEq

structure Entities where
  media : Option (List MediaEntity) := none
  urls : Option (List UrlEntity) := none
  deriving DecidableEq

structure ExtendedEntities where
  media : Option (List MediaEntity) := none
  deriving DecidableEq

structure Attachments where
  media_keys : Option (List String) := none
  deriving DecidableEq

structure UserObj where
  username : Option String := none
  screen_name : Option String := none
  name : Option String := none
  profile_image_url_https : Option String := none
  profile_image_url : Option String := none
  deriving DecidableEq

structure RefTweet where
  type : Option String := none
  deriving DecidableEq

/-- One feed item, with exactly the fields `processTweets` reads. -/
structure Tweet where
  id : String
  user : Option UserObj := none
  text : Option String := none
  created_at : Option Int := none
  in_reply_to_user_id : Option String := none
  referenced_tweets : Option (List RefTweet) := none
  extended_entities : Option ExtendedEntities := none
  entities : Option Entities := none
  attachments : Option Attachments := none
  deriving DecidableEq

/-- Lines 317 and 343: `variants.find(v => v.type === 'video/mp4' ||
v.src?.endsWith('.mp4'))` — the predicate of the first-match selection used by
the direct-video and parent-video tiers. -/
def isMp4TypeOrSrc (v : Variant) : Bool :=
  v.type == some "video/mp4" ||
    (match v.src with
     | some s => s.endsWith ".mp4"
     | none => false)

/-- First-match MP4 selection of the direct-video and parent-video tiers. -/
def findMp4Variant (variants : List Variant) : Option Variant :=
  variants.find? isMp4TypeOrSrc

/-- The descending-bitrate order of the comparator
`(b.bitrate || 0) - (a.bitrate || 0)`: `a` may precede `b` when `a`'s bitrate
is at least `b`'s (a missing bitrate counts as 0). -/
def bitrateGe (a b : Variant) : Prop :=
  b.bitrate.getD 0 ≤ a.bitrate.getD 0

instance : DecidableRel bitrateGe := fun _ _ => Nat.decLe _ _

instance : IsTotal Variant bitrateGe :=
  ⟨fun a b => Nat.le_total (b.bitrate.getD 0) (a.bitrate.getD 0)⟩

instance : IsTrans Variant bitrateGe :=
  ⟨fun _ _ _ hab hbc => le_trans hbc hab⟩

/-- Lines 370-372 and 458-460: filter to `content_type === 'video/mp4'`, then
sort by `(b.bitrate || 0) - (a.bitrate || 0)` (bitrate descending, a missing
bitrate counting as 0; a stable sort, as JS `Array.prototype.sort`). -/
def mp4BitrateSorted (variants : List Variant) : List Variant :=
  (variants.filter (fun v => v.content_type == some "video/mp4")).insertionSort
    bitrateGe

/-- The `mp4Variants[0]` pick of the `mediaDetails` tier and of the
`extended_entities` fallback tier. -/
def bestMp4 (variants : List Variant) : Option Variant :=
  (mp4BitrateSorted variants).head?

/-- The mutable per-post media-resolution state of `processTweets`
(lines 300-303 plus the embed's image and footer annotations). -/
structure MediaState where
  hasFoundImage : Bool := false
  hasFoundVideo : Bool := false
  videoPath : Option String := none
  videoFilename : Option String := none
  imageUrl : Option String := none
  footerNotes : List String := []
  deriving DecidableEq

/-- A network side effect performed while processing one post. -/
inductive NetAct where
  | fetchDetail
  | download (url : Option String)
  | sendEmbed
  | sendVideo
  deriving DecidableEq

/-- A cycle event: either marking a post ID as seen, or a network side effect
attributed to the post that triggered it. -/
inductive Ev where
  | markSeen (id : String)
  | net (id : String) (a : NetAct)
  deriving DecidableEq

/-- The network oracle: `fetchDetail` models `fetchSingleTweet` (error =
threw after retries; `ok none` = the endpoint returned no `data` field) and
`download` models `downloadMedia` (error = threw after retries; `ok p` = the
local file path). -/
structure Net where
  fetchDetail : String → Except Unit (Option DetailedTweet)
  download : String → Except Unit String

/-- Runs `downloadMedia` on a possibly-undefined URL: a missing URL makes
the request throw. -/
def doDownload (net : Net) : Option String → Except Unit String
  | none => Except.error ()
  | some u => net.download u

/-- Result of one stage inside the detail `try` block: the media state, the
network actions performed, and whether the stage threw (an uncaught download
error propagates to the `catch` on line 439, skipping the remaining stages). -/
structure Step where
  ms : MediaState
  evs : List NetAct
  thrown : Bool
  deriving DecidableEq

def pureStep (ms : MediaState) : Step := ⟨ms, [], false⟩

/-- Sequencing inside the detail `try` block: once a stage threw, the
remaining stages are skipped. -/
def seqStep (s : Step) (f : MediaState → Step) : Step :=
  if s.thrown then s
  else
    let s2 := f s.ms
    ⟨s2.ms, s.evs ++ s2.evs, s2.thrown⟩

/-- Lines 313-337: direct video object on the detailed tweet. -/
def tier1DirectVideo (net : Net) (id : String) (d : DetailedTweet)
    (ms : MediaState) : Step :=
  match d.video with
  | none => pureStep ms
  | some vo =>
    if ms.hasFoundVideo then pureStep ms
    else if vo.variants.isEmpty then pureStep ms
    else
      match findMp4Variant vo.variants with
      | none => pureStep ms
      | some mv =>
        let videoUrl := jsOrS mv.src mv.url
        let fname := "video_" ++ id ++ ".mp4"
        match doDownload net videoUrl with
        | Except.error _ =>
          ⟨{ ms with videoFilename := some fname }, [NetAct.download videoUrl], true⟩
        | Except.ok p =>
          if p = "" then
            ⟨{ ms with videoFilename := some fname, videoPath := some p },
              [NetAct.download videoUrl], false⟩
          else
            ⟨{ ms with
                videoFilename := some fname, videoPath := some p,
                hasFoundVideo := true,
                footerNotes := ms.footerNotes ++ ["Video will follow"] },
              [NetAct.download videoUrl], false⟩

/-- Lines 340-363: video on the parent tweet (for replies). -/
def tier2ParentVideo (net : Net) (id : String) (d : DetailedTweet)
    (ms : MediaState) : Step :=
  if ms.hasFoundVideo then pureStep ms
  else
    match d.parent with
    | none => pureStep ms
    | some par =>
      match par.video with
      | none => pureStep ms
      | some pv =>
        if pv.variants.isEmpty then pureStep ms
        else
          match findMp4Variant pv.variants with
          | none => pureStep ms
          | some mv =>
            let videoUrl := jsOrS mv.src mv.url
            let fname := "video_parent_" ++ id ++ ".mp4"
            match doDownload net videoUrl with
            | Except.error _ =>
              ⟨{ ms with videoFilename := some fname }, [NetAct.download videoUrl], true⟩
            | Except.ok p =>
              if p = "" then
                ⟨{ ms with videoFilename := some fname, videoPath := some p },
                  [NetAct.download videoUrl], false⟩
              else
                ⟨{ ms with
                    videoFilename := some fname, videoPath := some p,
                    hasFoundVideo := true,
                    footerNotes := ms.footerNotes ++ ["Video from referenced tweet will follow"] },
                  [NetAct.download videoUrl], false⟩

/-- Lines 367-395: the `for (const media of detailedTweet.mediaDetails)` loop.
A successful download breaks out of the loop; a falsy `videoPath` would let
the loop continue; a download error propagates out of the loop. -/
def tier3Loop (net : Net) (id : String) :
    List MediaDetailEntry → MediaState → Step
  | [], ms => pureStep ms
  | m :: rest, ms =>
    if m.type == some "video" || m.type == some "animated_gif" then
      match m.video_info with
      | none => tier3Loop net id rest ms
      | some vi =>
        match bestMp4 vi.variants with
        | none => tier3Loop net id rest ms
        | some best =>
          let fname := "video_" ++ id ++ ".mp4"
          match doDownload net best.url with
          | Except.error _ =>
            ⟨{ ms with videoFilename := some fname }, [NetAct.download best.url], true⟩
          | Except.ok p =>
            if p = "" then
              let s := tier3Loop net id rest
                { ms with videoFilename := some fname, videoPath := some p }
              ⟨s.ms, NetAct.download best.url :: s.evs, s.thrown⟩
            else
              ⟨{ ms with
                  videoFilename := some fname, videoPath := some p,
                  hasFoundVideo := true,
                  footerNotes := ms.footerNotes ++ ["Video will follow"] },
                [NetAct.download best.url], false⟩
    else tier3Loop net id rest ms

/-- Line 366: guard of the `mediaDetails` video tier. -/
def tier3MediaDetails (net : Net) (id : String) (d : DetailedTweet)
    (ms : MediaState) : Step :=
  if ms.hasFoundVideo then pureStep ms
  else
    match d.mediaDetails with
    | none => pureStep ms
    | some mds => if mds.isEmpty then pureStep ms else tier3Loop net id mds ms

/-- Lines 402-417: the loop over `detailedTweet.photos` (first photo whose URL
contains `media/` wins). -/
def photosLoop (total : Nat) : List Photo → MediaState → MediaState
  | [], ms => ms
  | p :: rest, ms =>
    match p.url with
    | some u =>
      if strContains u "media/" then
        { ms with
            imageUrl := some u, hasFoundImage := true,
            footerNotes :=
              if total > 1 then ms.footerNotes ++ [toString total ++ " images"]
              else ms.footerNotes }
      else photosLoop total rest ms
    | none => photosLoop total rest ms

/-- Lines 420-435: the photo loop over `detailedTweet.mediaDetails`. -/
def mediaDetailsPhotoLoop (total : Nat) :
    List MediaDetailEntry → MediaState → MediaState
  | [], ms => ms
  | m :: rest, ms =>
    match m.media_url_https with
    | some u =>
      if m.type == some "photo" then
        { ms with
            imageUrl := some u, hasFoundImage := true,
            footerNotes :=
              if total > 1 then ms.footerNotes ++ [toString total ++ " images"]
              else ms.footerNotes }
      else mediaDetailsPhotoLoop total rest ms
    | none => mediaDetailsPhotoLoop total rest ms

/-- Lines 418-436: the `else if` branch that scans `mediaDetails` for photos. -/
def detailPhotoFromMediaDetails (d : DetailedTweet) (ms : MediaState) : MediaState :=
  match d.mediaDetails with
  | some mds => if mds.isEmpty then ms else mediaDetailsPhotoLoop mds.length mds ms
  | none => ms

/-- Lines 398-437: image resolution inside the detail tier, attempted only
when no video was found. -/
def detailPhotoSection (d : DetailedTweet) (ms : MediaState) : MediaState :=
  if ms.hasFoundVideo then ms
  else
    match d.photos with
    | some ps =>
      if ps.isEmpty then detailPhotoFromMediaDetails d ms
      else photosLoop ps.length ps ms
    | none => detailPhotoFromMediaDetails d ms

/-- The body of `if (detailedTweet) { ... }` (lines 311-438), sequenced so
that a thrown download error skips the remaining stages. -/
def detailBody (net : Net) (id : String) (d : DetailedTweet)
    (ms : MediaState) : Step :=
  seqStep
    (seqStep
      (seqStep (tier1DirectVideo net id d ms) (tier2ParentVideo net id d))
      (tier3MediaDetails net id d))
    (fun m => pureStep (detailPhotoSection d m))

/-- Lines 306-442: fetch the detail record and run the detail tiers inside a
`try`/`catch`; the `catch` keeps whatever state mutations happened before the
throw and falls through. -/
def detailBlock (net : Net) (id : String) (ms : MediaState) :
    MediaState × List NetAct :=
  match net.fetchDetail id with
  | Except.error _ => (ms, [NetAct.fetchDetail])
  | Except.ok none => (ms, [NetAct.fetchDetail])
  | Except.ok (some d) =>
    let s := detailBody net id d ms
    (s.ms, NetAct.fetchDetail :: s.evs)

/-- Lines 451-483: video attempt on `extended_entities.media`; a download
error is caught by the inner `try`/`catch` and processing continues. -/
def extendedVideoAttempt (net : Net) (id : String) (ems : List MediaEntity)
    (ms : MediaState) : MediaState × List NetAct :=
  match ems.find? (fun m => m.type == some "video" || m.type == some "animated_gif") with
  | none => (ms, [])
  | some vm =>
    match vm.video_info with
    | none => (ms, [])
    | some vi =>
      match bestMp4 vi.variants with
      | none => (ms, [])
      | some best =>
        let fname := "video_" ++ id ++ ".mp4"
        match doDownload net best.url with
        | Except.error _ =>
          ({ ms with videoFilename := some fname }, [NetAct.download best.url])
        | Except.ok p =>
          if p = "" then
            ({ ms with videoFilename := some fname, videoPath := some p },
              [NetAct.download best.url])
          else
            ({ ms with
                videoFilename := some fname, videoPath := some p,
                hasFoundVideo := true,
                footerNotes := ms.footerNotes ++ ["Video will follow"] },
              [NetAct.download best.url])

/-- Lines 486-502: first image of `extended_entities.media`, attempted only
when no video and no image were found. -/
def extendedImageAttempt (ems : List MediaEntity) (ms : MediaState) : MediaState :=
  if ms.hasFoundVideo || ms.hasFoundImage then ms
  else
    match ems.head? with
    | none => ms
    | some m0 =>
      match jsOrS m0.media_url_https m0.media_url with
      | none => ms
      | some u =>
        if u = "" then ms
        else
          { ms with
              imageUrl := some u, hasFoundImage := true,
              footerNotes :=
                if ems.length > 1 then ms.footerNotes ++ [toString ems.length ++ " images"]
                else ms.footerNotes }

/-- Lines 506-562: media resolution from `tweet.entities`. -/
def entitiesSection (t : Tweet) (ms : MediaState) : MediaState :=
  if ms.hasFoundImage || ms.hasFoundVideo then ms
  else
    match t.entities with
    | none => ms
    | some ents =>
      let ms1 :=
        match ents.media with
        | some (m0 :: _) =>
          match jsOrS m0.media_url_https m0.media_url with
          | some u =>
            if u = "" then ms
            else { ms with imageUrl := some u, hasFoundImage := true }
          | none => ms
        | _ => ms
      if ms1.hasFoundImage then ms1
      else
        match ents.urls with
        | none => ms1
        | some urls =>
          if urls.isEmpty then ms1
          else
            let imageUrlsWithData := urls.filter (fun u =>
              match u.images with
              | some imgs => !imgs.isEmpty
              | none => false)
            match imageUrlsWithData with
            | u0 :: _ =>
              match u0.images with
              | some (img0 :: _) =>
                { ms1 with
                    imageUrl := some img0.url, hasFoundImage := true,
                    footerNotes :=
                      if imageUrlsWithData.length > 1 then
                        ms1.footerNotes ++ [toString imageUrlsWithData.length ++ " images"]
                      else ms1.footerNotes }
              | _ => ms1
            | [] =>
              let mediaUrls := (urls.filter (fun u =>
                (match u.display_url with
                 | some duu => strContains duu "pic.twitter.com" || strContains duu "pic.x.com"
                 | none => false)
                || (match u.expanded_url with
                    | some eu => strContains eu "/photo/"
                    | none => false))).map (fun u => u.expanded_url)
              match mediaUrls with
              | e0 :: _ =>
                { ms1 with
                    imageUrl := e0, hasFoundImage := true,
                    footerNotes :=
                      if mediaUrls.length > 1 then
                        ms1.footerNotes ++ [toString mediaUrls.length ++ " images"]
                      else ms1.footerNotes }
              | [] => ms1

/-- Lines 447-503: the `extended_entities` stage of the fallback tier —
a video attempt followed (when still without media) by the first image. -/
def extendedEntitiesStage (net : Net) (t : Tweet) (ms : MediaState) :
    MediaState × List NetAct :=
  match t.extended_entities with
  | some ee =>
    match ee.media with
    | some ems =>
      if ems.isEmpty then (ms, ([] : List NetAct))
      else
        let msa := extendedVideoAttempt net t.id ems ms
        (extendedImageAttempt ems msa.1, msa.2)
    | none => (ms, [])
  | none => (ms, [])

/-- Lines 445-563: the fallback tier on the raw tweet, run only when the
detail tier yielded no media. -/
def fallbackSection (net : Net) (t : Tweet) (ms : MediaState) :
    MediaState × List NetAct :=
  if ms.hasFoundImage || ms.hasFoundVideo then (ms, [])
  else
    let msEvs := extendedEntitiesStage net t ms
    (entitiesSection t msEvs.1, msEvs.2)

/-- Lines 565-577: bare "contains media" footer marker. -/
def attachmentsNote (t : Tweet) (ms : MediaState) : MediaState :=
  if ms.hasFoundImage || ms.hasFoundVideo then ms
  else
    match t.attachments with
    | none => ms
    | some att =>
      match att.media_keys with
      | some (_ :: _) => { ms with footerNotes := ms.footerNotes ++ ["Contains media"] }
      | _ => ms

/-- Result of processing one already-marked post: final media state, the
network actions performed, and whether the embed message was sent. -/
structure PostRes where
  ms : MediaState
  evs : List NetAct
  sent : Bool
  deriving DecidableEq

/-- Lines 237-619: the per-post body of the processing loop.  A post with no
`user` is skipped before any network call (lines 239-243); otherwise the
media cascade runs, the embed is sent (line 588), and a found video is sent
as a second message (lines 592-599). -/
def processPost (net : Net) (t : Tweet) : PostRes :=
  match t.user with
  | none => ⟨{}, [], false⟩
  | some _ =>
    let msEvs1 := detailBlock net t.id {}
    let msEvs2 := fallbackSection net t msEvs1.1
    let ms3 := attachmentsNote t msEvs2.1
    let vids := if ms3.hasFoundVideo && optTruthy ms3.videoPath then [NetAct.sendVideo] else []
    ⟨ms3, msEvs1.2 ++ msEvs2.2 ++ [NetAct.sendEmbed] ++ vids, true⟩

/-- The persistent bot state: seen IDs and the last fetch timestamp. -/
structure BotState where
  lastProcessedIds : List String
  lastFetchTimestamp : Option Int
  deriving DecidableEq

/-- Line 214-215: the freshness predicate `(currentTime - tweetTime) <= 60000`
(a missing `created_at` yields `NaN`, failing the comparison). -/
def isRecent (currentTime : Int) (t : Tweet) : Bool :=
  match t.created_at with
  | none => false
  | some ct => currentTime - ct ≤ 60000

def tweetSortKey (t : Tweet) : Int := t.created_at.getD 0

/-- The newest-first order of the comparator on lines 203-207. -/
def newerFirst (a b : Tweet) : Prop :=
  tweetSortKey b ≤ tweetSortKey a

instance : DecidableRel newerFirst := fun _ _ => Int.decLe _ _

/-- Lines 203-216: sort newest-first (a stable sort, as JS
`Array.prototype.sort`), then keep only posts within the 60-second freshness
window. -/
def recentTweetsOf (currentTime : Int) (tweets : List Tweet) : List Tweet :=
  (tweets.insertionSort newerFirst).filter (isRecent currentTime)

/-- Result of the per-cycle processing loop. -/
structure LoopRes where
  seen : List String
  trace : List Ev
  published : List String
  deriving DecidableEq

/-- Lines 228-620: the `for (const tweet of recentTweets)` loop.  An already
seen ID is skipped; otherwise the ID is marked seen first (line 235) and only
then is the post processed. -/
def processLoop (net : Net) : List String → List Tweet → LoopRes
  | _seen, [] => ⟨_seen, [], []⟩
  | seen, t :: rest =>
    if seen.contains t.id then processLoop net seen rest
    else
      let pr := processPost net t
      let lr := processLoop net (t.id :: seen) rest
      ⟨lr.seen,
        Ev.markSeen t.id :: (pr.evs.map (Ev.net t.id)) ++ lr.trace,
        (if pr.sent then [t.id] else []) ++ lr.published⟩

/-- Result of one whole cycle. -/
structure CycleRes where
  state : BotState
  trace : List Ev
  published : List String
  saved : Bool
  deriving DecidableEq

/-- Lines 170-634: one `processTweets` cycle, given an already fetched batch.
`channelOk` models `client.channels.fetch` returning a usable channel;
`currentFetchTime` is `Date.now()` at line 181 and `currentTime` the one at
line 212.  `saved` records whether `saveState()` ran. -/
def processTweets (net : Net) (channelOk : Bool)
    (currentFetchTime currentTime : Int) (st : BotState)
    (tweets : List Tweet) : CycleRes :=
  match st.lastFetchTimestamp with
  | none =>
    ⟨⟨tweets.foldl (fun s t => t.id :: s) st.lastProcessedIds, some currentFetchTime⟩,
      tweets.map (fun t => Ev.markSeen t.id), [], true⟩
  | some _ =>
    if !channelOk then ⟨st, [], [], false⟩
    else
      let recents := recentTweetsOf currentTime tweets
      if recents.isEmpty then
        ⟨⟨st.lastProcessedIds, some currentFetchTime⟩, [], [], false⟩
      else
        let lr := processLoop net st.lastProcessedIds recents
        ⟨⟨lr.seen, some currentFetchTime⟩, lr.trace, lr.published, true⟩

/-- Returns `true` on the error constructor. -/
def isErr {ε α : Type} : Except ε α → Bool
  | Except.error _ => true
  | Except.ok _ => false

/-- Lines 79-97, the loop of `withRetry`: `f n` is the outcome of attempt `n`
(1-indexed); `remaining` counts attempts still allowed, `lastError` the most
recent error, `delays` the delays performed so far.  A delay happens only when
`attempt < maxRetries` (line 89). -/
def withRetryGo {ε α : Type} (f : Nat → Except ε α) :
    Nat → Nat → Option ε → Nat → Except (Option ε) α × Nat
  | _, 0, lastError, delays => (Except.error lastError, delays)
  | attempt, remaining + 1, _lastError, delays =>
    match f attempt with
    | Except.ok a => (Except.ok a, delays)
    | Except.error e =>
      match remaining with
      | 0 => (Except.error (some e), delays)
      | r + 1 => withRetryGo f (attempt + 1) (r + 1) (some e) (delays + 1)

/-- Lines 79-97: `withRetry(fn, maxRetries)`.  Returns the outcome (`error
none` models throwing the undefined `lastError` when `maxRetries` is 0) and
the number of delays performed. -/
def withRetry {ε α : Type} (f : Nat → Except ε α) (maxRetries : Nat) :
    Except (Option ε) α × Nat :=
  withRetryGo f 1 maxRetries none 0

/-!
### Basic lemmas
-/

theorem contains_mem (seen : List String) (x : String) :
    seen.contains x = true ↔ x ∈ seen := by
  simp

theorem doDownload_fail {net : Net} (hfail : ∀ u, net.download u = Except.error ())
    (o : Option String) : doDownload net o = Except.error () := by
  cases o with
  | none => rfl
  | some u => exact hfail u

theorem processPost_user_none (net : Net) (t : Tweet) (h : t.user = none) :
    processPost net t = ⟨{}, [], false⟩ := by
  simp [processPost, h]

theorem processPost_sent (net : Net) (t : Tweet) :
    (processPost net t).sent = t.user.isSome := by
  cases h : t.user <;> simp [processPost, h]

theorem mem_recentTweetsOf (currentTime : Int) (tweets : List Tweet) (t : Tweet) :
    t ∈ recentTweetsOf currentTime tweets ↔
      t ∈ tweets ∧ isRecent currentTime t = true := by
  unfold recentTweetsOf
  rw [List.mem_filter, List.mem_insertionSort]

/-!
### Invariants of the per-cycle processing loop
-/

theorem processLoop_seen_mono (net : Net) (ts : List Tweet) :
    ∀ (seen : List String) (x : String), x ∈ seen →
      x ∈ (processLoop net seen ts).seen := by
  induction ts with
  | nil => intro seen x hx; simp only [processLoop]; exact hx
  | cons t rest ih =>
    intro seen x hx
    by_cases hc : t.id ∈ seen
    · simpa [processLoop, hc] using ih seen x hx
    · simpa [processLoop, hc] using ih (t.id :: seen) x (List.mem_cons_of_mem _ hx)

theorem processLoop_seen_sub (net : Net) (ts : List Tweet) :
    ∀ (seen : List String) (x : String), x ∈ (processLoop net seen ts).seen →
      x ∈ seen ∨ ∃ t ∈ ts, t.id = x := by
  induction ts with
  | nil => intro seen x hx; exact Or.inl (by simpa [processLoop] using hx)
  | cons t rest ih =>
    intro seen x hx
    by_cases hc : t.id ∈ seen
    · rcases ih seen x (by simpa [processLoop, hc] using hx) with h | ⟨t2, ht2, rfl⟩
      · exact Or.inl h
      · exact Or.inr ⟨t2, List.mem_cons_of_mem _ ht2, rfl⟩
    · rcases ih (t.id :: seen) x (by simpa [processLoop, hc] using hx) with h | ⟨t2, ht2, rfl⟩
      · rcases List.mem_cons.1 h with h1 | h1
        · exact Or.inr ⟨t, List.mem_cons_self _ _, h1.symm⟩
        · exact Or.inl h1
      · exact Or.inr ⟨t2, List.mem_cons_of_mem _ ht2, rfl⟩

theorem processLoop_id_seen (net : Net) (ts : List Tweet) :
    ∀ (seen : List String) (t : Tweet), t ∈ ts →
      t.id ∈ (processLoop net seen ts).seen := by
  induction ts with
  | nil => intro seen t ht; cases ht
  | cons t0 rest ih =>
    intro seen t ht
    by_cases hc : t0.id ∈ seen
    · rcases List.mem_cons.1 ht with rfl | h1
      · simpa [processLoop, hc] using
          processLoop_seen_mono net rest seen t.id hc
      · simpa [processLoop, hc] using ih seen t h1
    · rcases List.mem_cons.1 ht with rfl | h1
      · simpa [processLoop, hc] using
          processLoop_seen_mono net rest (t.id :: seen) t.id (List.mem_cons_self _ _)
      · simpa [processLoop, hc] using ih (t0.id :: seen) t h1

theorem processLoop_not_published (net : Net) (ts : List Tweet) :
    ∀ (seen : List String) (p : String), p ∈ seen →
      p ∉ (processLoop net seen ts).published := by
  induction ts with
  | nil => intro seen p _ hmem; simp [processLoop] at hmem
  | cons t rest ih =>
    intro seen p hp hmem
    by_cases hc : t.id ∈ seen
    · exact ih seen p hp (by simpa [processLoop, hc] using hmem)
    · have hmem2 : p ∈ (if (processPost net t).sent then [t.id] else []) ++
          (processLoop net (t.id :: seen) rest).published := by
        simpa [processLoop, hc] using hmem
      rcases List.mem_append.1 hmem2 with h1 | h1
      · have : p = t.id := by
          rcases Bool.eq_false_or_eq_true (processPost net t).sent with hs | hs <;>
            simp [hs] at h1
          exact h1
        subst this
        exact hc hp
      · exact ih (t.id :: seen) p (List.mem_cons_of_mem _ hp) h1

theorem processLoop_published_src (net : Net) (ts : List Tweet) :
    ∀ (seen : List String) (p : String), p ∈ (processLoop net seen ts).published →
      ∃ t ∈ ts, t.id = p ∧ t.user.isSome = true := by
  induction ts with
  | nil => intro seen p hmem; simp [processLoop] at hmem
  | cons t rest ih =>
    intro seen p hmem
    by_cases hc : t.id ∈ seen
    · rcases ih seen p (by simpa [processLoop, hc] using hmem) with ⟨t2, ht2, h⟩
      exact ⟨t2, List.mem_cons_of_mem _ ht2, h⟩
    · have hmem2 : p ∈ (if (processPost net t).sent then [t.id] else []) ++
          (processLoop net (t.id :: seen) rest).published := by
        simpa [processLoop, hc] using hmem
      rcases List.mem_append.1 hmem2 with h1 | h1
      · rcases Bool.eq_false_or_eq_true (processPost net t).sent with hs | hs
        · have hu : t.user.isSome = true := by rw [← processPost_sent net t]; exact hs
          have : p = t.id := by simpa [hs] using h1
          exact ⟨t, List.mem_cons_self _ _, this.symm, hu⟩
        · simp [hs] at h1
      · rcases ih (t.id :: seen) p h1 with ⟨t2, ht2, h⟩
        exact ⟨t2, List.mem_cons_of_mem _ ht2, h⟩

theorem processLoop_net_src (net : Net) (ts : List Tweet) :
    ∀ (seen : List String) (p : String) (a : NetAct),
      Ev.net p a ∈ (processLoop net seen ts).trace →
      ∃ t ∈ ts, t.id = p ∧ t.user.isSome = true := by
  induction ts with
  | nil => intro seen p a hmem; simp [processLoop] at hmem
  | cons t rest ih =>
    intro seen p a hmem
    by_cases hc : t.id ∈ seen
    · rcases ih seen p a (by simpa [processLoop, hc] using hmem) with ⟨t2, ht2, h⟩
      exact ⟨t2, List.mem_cons_of_mem _ ht2, h⟩
    · have hmem2 : Ev.net p a ∈ Ev.markSeen t.id ::
          ((processPost net t).evs.map (Ev.net t.id) ++
            (processLoop net (t.id :: seen) rest).trace) := by
        simpa [processLoop, hc] using hmem
      rcases List.mem_cons.1 hmem2 with h1 | h1
      · cases h1
      · rcases List.mem_append.1 h1 with h2 | h2
        · rcases List.mem_map.1 h2 with ⟨act, _hact, heq⟩
          have hid : t.id = p := by cases heq; rfl
          have hu : t.user.isSome = true := by
            cases hu : t.user with
            | none =>
              rw [processPost_user_none net t hu] at h2
              simp at h2
            | some u => rfl
          exact ⟨t, List.mem_cons_self _ _, hid, hu⟩
        · rcases ih (t.id :: seen) p a h2 with ⟨t2, ht2, h⟩
          exact ⟨t2, List.mem_cons_of_mem _ ht2, h⟩

/-!
### Marks precede network side effects (crash-safety ordering)
-/

/-- Checker for the crash-safety ordering: scanning the trace left to right,
every network event of a post must be preceded by a mark of the same post ID
(IDs in `marked` count as marked before the trace started). -/
def marksPrecede (marked : List String) : List Ev → Bool
  | [] => true
  | Ev.markSeen p :: rest => marksPrecede (p :: marked) rest
  | Ev.net p _ :: rest => marked.contains p && marksPrecede marked rest

theorem marksPrecede_map_net (p : String) (marked : List String)
    (hp : p ∈ marked) (acts : List NetAct) (rest : List Ev) :
    marksPrecede marked (acts.map (Ev.net p) ++ rest) = marksPrecede marked rest := by
  induction acts with
  | nil => rfl
  | cons a acts ih => simp [marksPrecede, ih, hp]

theorem processLoop_marksPrecede (net : Net) (ts : List Tweet) :
    ∀ (seen marked : List String),
      marksPrecede marked (processLoop net seen ts).trace = true := by
  induction ts with
  | nil => intro seen marked; simp [processLoop, marksPrecede]
  | cons t rest ih =>
    intro seen marked
    by_cases hc : t.id ∈ seen
    · simpa [processLoop, hc] using ih seen marked
    · have heq : marksPrecede marked (processLoop net seen (t :: rest)).trace
          = marksPrecede (t.id :: marked)
              ((processPost net t).evs.map (Ev.net t.id) ++
                (processLoop net (t.id :: seen) rest).trace) := by
        simp [processLoop, hc, marksPrecede]
      rw [heq, marksPrecede_map_net t.id (t.id :: marked) (List.mem_cons_self _ _)]
      exact ih (t.id :: seen) (t.id :: marked)

theorem marksPrecede_split :
    ∀ (pre : List Ev) (marked : List String) (p : String) (a : NetAct) (post : List Ev),
      marksPrecede marked (pre ++ Ev.net p a :: post) = true →
      Ev.markSeen p ∈ pre ∨ p ∈ marked := by
  intro pre
  induction pre with
  | nil =>
    intro marked p a post h
    have h2 : marked.contains p = true ∧ marksPrecede marked post = true := by
      simpa [marksPrecede, Bool.and_eq_true] using h
    exact Or.inr ((contains_mem marked p).1 h2.1)
  | cons e pre ih =>
    intro marked p a post h
    cases e with
    | markSeen q =>
      rcases ih (q :: marked) p a post (by simpa [marksPrecede] using h) with h3 | h3
      · exact Or.inl (List.mem_cons_of_mem _ h3)
      · rcases List.mem_cons.1 h3 with rfl | h4
        · exact Or.inl (List.mem_cons_self _ _)
        · exact Or.inr h4
    | net q b =>
      have h2 : marked.contains q = true ∧
          marksPrecede marked (pre ++ Ev.net p a :: post) = true := by
        simpa [marksPrecede, Bool.and_eq_true] using h
      rcases ih marked p a post h2.2 with h3 | h3
      · exact Or.inl (List.mem_cons_of_mem _ h3)
      · exact Or.inr h3

/-!
### Concrete fixtures for witnesses and counterexamples
-/

/-- A network oracle for concrete runs: no detail record, downloads succeed. -/
def plainNet : Net :=
  ⟨fun _ => Except.ok none, fun u => Except.ok ("cache-" ++ u)⟩

/-- A fresh post (age 20s at time 70000). -/
def freshTweet : Tweet :=
  { id := "fresh1", user := some {}, created_at := some 50000 }

/-- A stale post (age 70s at time 70000, outside the 60s window). -/
def staleTweet : Tweet :=
  { id := "stale1", user := some {}, created_at := some 0 }

/-- A fresh post whose `user` field is absent. -/
def userlessTweet : Tweet :=
  { id := "nouser1", created_at := some 50000 }

/-!
### The claims
-/

/-- C2: in every cycle, a post's ID is marked in SeenSet before any network
side effect of processing that post (detail fetch, media download, channel
send) appears in the trace: wherever the cycle trace splits around a network
event of post `p`, a `markSeen p` already occurred in the prefix. -/
theorem claim2_mark_before_network (net : Net) (channelOk : Bool)
    (currentFetchTime currentTime : Int) (st : BotState) (tweets : List Tweet)
    (pre post : List Ev) (p : String) (a : NetAct)
    (h : (processTweets net channelOk currentFetchTime currentTime st tweets).trace
        = pre ++ Ev.net p a :: post) :
    Ev.markSeen p ∈ pre := by
  cases hts : st.lastFetchTimestamp with
  | none =>
    exfalso
    have hmem : Ev.net p a ∈
        (processTweets net channelOk currentFetchTime currentTime st tweets).trace := by
      rw [h]; exact List.mem_append.2 (Or.inr (List.mem_cons_self _ _))
    simp [processTweets, hts] at hmem
  | some τ =>
    cases hch : channelOk with
    | false =>
      exfalso
      rw [processTweets] at h
      simp [hts, hch] at h
    | true =>
      by_cases hrec : (recentTweetsOf currentTime tweets).isEmpty = true
      · exfalso
        rw [processTweets] at h
        simp [hts, hch, hrec] at h
      · have hloop : (processTweets net channelOk currentFetchTime currentTime st tweets).trace
            = (processLoop net st.lastProcessedIds (recentTweetsOf currentTime tweets)).trace := by
          simp [processTweets, hts, hch, hrec]
        have hmp := processLoop_marksPrecede net (recentTweetsOf currentTime tweets)
          st.lastProcessedIds []
        rw [← hloop, h] at hmp
        rcases marksPrecede_split pre [] p a post hmp with h3 | h3
        · exact h3
        · cases h3

/-- C2 witness: a concrete cycle whose trace is
`[markSeen, fetchDetail, sendEmbed]`, split around the detail fetch. -/
theorem claim2_witness : Ev.markSeen "fresh1" ∈ [Ev.markSeen "fresh1"] :=
  claim2_mark_before_network plainNet true 70000 70000 ⟨[], some 5⟩ [freshTweet]
    [Ev.markSeen "fresh1"] [Ev.net "fresh1" NetAct.sendEmbed] "fresh1"
    NetAct.fetchDetail (by decide)

/-- C3: a post whose ID is already in SeenSet when the cycle starts is never
published in that cycle. -/
theorem claim3_seen_never_republished (net : Net) (channelOk : Bool)
    (currentFetchTime currentTime : Int) (st : BotState) (tweets : List Tweet)
    (p : String) (hp : p ∈ st.lastProcessedIds) :
    p ∉ (processTweets net channelOk currentFetchTime currentTime st tweets).published := by
  intro hmem
  cases hts : st.lastFetchTimestamp with
  | none => simp [processTweets, hts] at hmem
  | some τ =>
    cases hch : channelOk with
    | false => simp [processTweets, hts, hch] at hmem
    | true =>
      by_cases hrec : (recentTweetsOf currentTime tweets).isEmpty = true
      · simp [processTweets, hts, hch, hrec] at hmem
      · have hmem2 : p ∈ (processLoop net st.lastProcessedIds
            (recentTweetsOf currentTime tweets)).published := by
          simpa [processTweets, hts, hch, hrec] using hmem
        exact processLoop_not_published net _ st.lastProcessedIds p hp hmem2

/-- C3 witness: a seen fresh post is not republished in a concrete cycle. -/
theorem claim3_witness :
    "fresh1" ∉ (processTweets plainNet true 70000 70000
        ⟨["fresh1"], some 5⟩ [freshTweet]).published :=
  claim3_seen_never_republished plainNet true 70000 70000 ⟨["fresh1"], some 5⟩
    [freshTweet] "fresh1" (by decide)

theorem foldl_ids_mem (ts : List Tweet) :
    ∀ (init : List String) (x : String),
      x ∈ ts.foldl (fun s t2 => t2.id :: s) init ↔ x ∈ init ∨ ∃ t ∈ ts, t.id = x := by
  induction ts with
  | nil => intro init x; simp
  | cons t rest ih =>
    intro init x
    rw [List.foldl_cons, ih (t.id :: init) x]
    simp only [List.mem_cons]
    constructor
    · rintro ((rfl | h) | ⟨t2, ht2, rfl⟩)
      · exact Or.inr ⟨t, Or.inl rfl, rfl⟩
      · exact Or.inl h
      · exact Or.inr ⟨t2, Or.inr ht2, rfl⟩
    · rintro (h | ⟨t2, (rfl | ht2), rfl⟩)
      · exact Or.inl (Or.inr h)
      · exact Or.inl (Or.inl rfl)
      · exact Or.inr ⟨t2, ht2, rfl⟩

/-- C4: the first-ever cycle (null `lastFetchTimestamp`) publishes nothing,
marks every fetched post's ID as seen (not only recent ones), records the
fetch timestamp and persists the state. -/
theorem claim4_first_cycle (net : Net) (channelOk : Bool)
    (currentFetchTime currentTime : Int) (st : BotState) (tweets : List Tweet)
    (h : st.lastFetchTimestamp = none) :
    (processTweets net channelOk currentFetchTime currentTime st tweets).published = [] ∧
    (∀ t ∈ tweets, t.id ∈
      (processTweets net channelOk currentFetchTime currentTime st tweets).state.lastProcessedIds) ∧
    (processTweets net channelOk currentFetchTime currentTime st tweets).state.lastFetchTimestamp
        = some currentFetchTime ∧
    (processTweets net channelOk currentFetchTime currentTime st tweets).saved = true := by
  refine ⟨by simp [processTweets, h], ?_, by simp [processTweets, h], by simp [processTweets, h]⟩
  intro t ht
  simp only [processTweets, h]
  exact (foldl_ids_mem tweets st.lastProcessedIds t.id).2 (Or.inr ⟨t, ht, rfl⟩)

/-- C4 witness: a concrete first cycle over a stale and a fresh post. -/
theorem claim4_witness :
    (processTweets plainNet true 70000 70000 ⟨[], none⟩ [staleTweet, freshTweet]).published = [] ∧
    "stale1" ∈ (processTweets plainNet true 70000 70000 ⟨[], none⟩
        [staleTweet, freshTweet]).state.lastProcessedIds ∧
    (processTweets plainNet true 70000 70000 ⟨[], none⟩ [staleTweet, freshTweet]).saved = true := by
  have h := claim4_first_cycle plainNet true 70000 70000 ⟨[], none⟩ [staleTweet, freshTweet] rfl
  exact ⟨h.1, h.2.1 staleTweet (by decide), h.2.2.2⟩

/-- C9: after the first cycle, `saveState` runs iff the cycle produced at
least one recent post; with zero recent posts only the in-memory
`lastFetchTimestamp` is updated and the persisted state is untouched. -/
theorem claim9_save_iff_recent (net : Net) (currentFetchTime currentTime : Int)
    (st : BotState) (tweets : List Tweet) (τ : Int)
    (h : st.lastFetchTimestamp = some τ) :
    ((processTweets net true currentFetchTime currentTime st tweets).saved = true ↔
      recentTweetsOf currentTime tweets ≠ []) ∧
    (recentTweetsOf currentTime tweets = [] →
      (processTweets net true currentFetchTime currentTime st tweets).state.lastProcessedIds
          = st.lastProcessedIds ∧
      (processTweets net true currentFetchTime currentTime st tweets).state.lastFetchTimestamp
          = some currentFetchTime ∧
      (processTweets net true currentFetchTime currentTime st tweets).saved = false) := by
  by_cases hrec : (recentTweetsOf currentTime tweets).isEmpty = true
  · have hnil : recentTweetsOf currentTime tweets = [] := List.isEmpty_iff.1 hrec
    simp [processTweets, h, hrec, hnil]
  · have hne : recentTweetsOf currentTime tweets ≠ [] := by
      intro hh
      exact hrec (by rw [hh]; rfl)
    simp [processTweets, h, hrec, hne]

/-- C9 witness: a cycle whose only fetched post is stale saves nothing and
only advances the in-memory timestamp. -/
theorem claim9_witness :
    (processTweets plainNet true 80000 70000 ⟨["x"], some 5⟩ [staleTweet]).saved = false ∧
    (processTweets plainNet true 80000 70000 ⟨["x"], some 5⟩ [staleTweet]).state.lastProcessedIds
        = ["x"] ∧
    (processTweets plainNet true 80000 70000 ⟨["x"], some 5⟩ [staleTweet]).state.lastFetchTimestamp
        = some 80000 := by
  have h := claim9_save_iff_recent plainNet 80000 70000 ⟨["x"], some 5⟩ [staleTweet] 5 rfl
  have h2 := h.2 (by decide)
  exact ⟨h2.2.2, h2.1, h2.2.1⟩

/-- C10: a recent, not-yet-seen post with no `user` field is marked seen but
never published, and no network side effect (detail fetch, download, send) is
attempted for it: it is silently and permanently dropped. -/
theorem claim10_userless_dropped (net : Net) (currentFetchTime currentTime : Int)
    (st : BotState) (tweets : List Tweet) (t : Tweet) (τ : Int)
    (hts : st.lastFetchTimestamp = some τ)
    (hmem : t ∈ tweets)
    (hrecent : isRecent currentTime t = true)
    (huser : t.user = none)
    (hnew : t.id ∉ st.lastProcessedIds)
    (huniq : ∀ t2 ∈ tweets, t2.id = t.id → t2.user = none) :
    t.id ∈ (processTweets net true currentFetchTime currentTime st tweets).state.lastProcessedIds ∧
    t.id ∉ (processTweets net true currentFetchTime currentTime st tweets).published ∧
    ∀ a : NetAct, Ev.net t.id a ∉
      (processTweets net true currentFetchTime currentTime st tweets).trace := by
  have htrec : t ∈ recentTweetsOf currentTime tweets :=
    (mem_recentTweetsOf _ _ _).2 ⟨hmem, hrecent⟩
  have hrec : ¬ (recentTweetsOf currentTime tweets).isEmpty = true := by
    intro hh
    rw [List.isEmpty_iff.1 hh] at htrec
    cases htrec
  refine ⟨?_, ?_, ?_⟩
  · simpa [processTweets, hts, hrec] using
      processLoop_id_seen net (recentTweetsOf currentTime tweets) st.lastProcessedIds t htrec
  · intro hpub
    have hpub2 : t.id ∈ (processLoop net st.lastProcessedIds
        (recentTweetsOf currentTime tweets)).published := by
      simpa [processTweets, hts, hrec] using hpub
    rcases processLoop_published_src net _ st.lastProcessedIds t.id hpub2 with ⟨t2, ht2, hid, hu⟩
    rw [huniq t2 ((mem_recentTweetsOf _ _ _).1 ht2).1 hid] at hu
    cases hu
  · intro a hnet
    have hnet2 : Ev.net t.id a ∈ (processLoop net st.lastProcessedIds
        (recentTweetsOf currentTime tweets)).trace := by
      simpa [processTweets, hts, hrec] using hnet
    rcases processLoop_net_src net _ st.lastProcessedIds t.id a hnet2 with ⟨t2, ht2, hid, hu⟩
    rw [huniq t2 ((mem_recentTweetsOf _ _ _).1 ht2).1 hid] at hu
    cases hu

/-- C10 witness: a concrete recent post without a `user` field. -/
theorem claim10_witness :
    "nouser1" ∈ (processTweets plainNet true 70000 70000 ⟨[], some 5⟩
        [userlessTweet]).state.lastProcessedIds ∧
    "nouser1" ∉ (processTweets plainNet true 70000 70000 ⟨[], some 5⟩
        [userlessTweet]).published ∧
    Ev.net "nouser1" NetAct.fetchDetail ∉
      (processTweets plainNet true 70000 70000 ⟨[], some 5⟩ [userlessTweet]).trace ∧
    Ev.net "nouser1" NetAct.sendEmbed ∉
      (processTweets plainNet true 70000 70000 ⟨[], some 5⟩ [userlessTweet]).trace := by
  have h := claim10_userless_dropped plainNet 70000 70000 ⟨[], some 5⟩ [userlessTweet]
    userlessTweet 5 rfl (by decide) (by decide) rfl (by decide) (by decide)
  exact ⟨h.1, h.2.1, h.2.2 NetAct.fetchDetail, h.2.2 NetAct.sendEmbed⟩

/-- C1 counterexample: a post older than the freshness window is NOT added to
SeenSet (the claim says it is): after a non-first cycle over a stale post
(age 70s) and a fresh one, the stale ID is absent from SeenSet. -/
theorem claim1_counterexample :
    staleTweet.created_at = some 0 ∧ 60000 < (70000 : Int) - 0 ∧
    "stale1" ∉ (processTweets plainNet true 70000 70000 ⟨[], some 5⟩
        [staleTweet, freshTweet]).state.lastProcessedIds ∧
    "stale1" ∉ (processTweets plainNet true 70000 70000 ⟨[], some 5⟩
        [staleTweet, freshTweet]).published := by
  refine ⟨rfl, by decide, ?_, ?_⟩ <;> decide

/-- C1 (as amended): after the first cycle, a fetched post older than the
60-second freshness window is never published AND is not added to SeenSet
either — the freshness filter drops it before the dedup stage, so its SeenSet
membership is unchanged. -/
theorem claim1_stale_dropped (net : Net) (channelOk : Bool)
    (currentFetchTime currentTime : Int) (st : BotState) (tweets : List Tweet)
    (t : Tweet) (τ ctime : Int)
    (hts : st.lastFetchTimestamp = some τ)
    (hmem : t ∈ tweets)
    (hcreated : t.created_at = some ctime)
    (hstale : 60000 < currentTime - ctime)
    (huniq : ∀ t2 ∈ tweets, t2.id = t.id → t2 = t) :
    t.id ∉ (processTweets net channelOk currentFetchTime currentTime st tweets).published ∧
    (t.id ∈ (processTweets net channelOk currentFetchTime currentTime st tweets).state.lastProcessedIds
      ↔ t.id ∈ st.lastProcessedIds) := by
  have hnotrec : ∀ t2 ∈ recentTweetsOf currentTime tweets, t2.id ≠ t.id := by
    intro t2 ht2 hid
    have hmem2 := (mem_recentTweetsOf _ _ _).1 ht2
    have ht2t : t2 = t := huniq t2 hmem2.1 hid
    rw [ht2t] at hmem2
    have : isRecent currentTime t = true := hmem2.2
    rw [isRecent, hcreated] at this
    simp at this
    omega
  cases hch : channelOk with
  | false => simp [processTweets, hts, hch]
  | true =>
    by_cases hrec : (recentTweetsOf currentTime tweets).isEmpty = true
    · simp [processTweets, hts, hch, hrec]
    · constructor
      · intro hpub
        have hpub2 : t.id ∈ (processLoop net st.lastProcessedIds
            (recentTweetsOf currentTime tweets)).published := by
          simpa [processTweets, hts, hch, hrec] using hpub
        rcases processLoop_published_src net _ st.lastProcessedIds t.id hpub2 with
          ⟨t2, ht2, hid, _⟩
        exact hnotrec t2 ht2 hid
      · have hseen : (processTweets net true currentFetchTime currentTime st tweets).state.lastProcessedIds
            = (processLoop net st.lastProcessedIds (recentTweetsOf currentTime tweets)).seen := by
          simp [processTweets, hts, hrec]
        rw [hseen]
        constructor
        · intro hmem3
          rcases processLoop_seen_sub net _ st.lastProcessedIds t.id hmem3 with h | ⟨t2, ht2, hid⟩
          · exact h
          · exact absurd hid (hnotrec t2 ht2)
        · exact fun hx => processLoop_seen_mono net _ st.lastProcessedIds t.id hx

/-- C1 witness (for the amended claim): the concrete stale post of the
counterexample, with unchanged SeenSet membership. -/
theorem claim1_witness :
    "stale1" ∉ (processTweets plainNet true 70000 70000 ⟨[], some 5⟩
        [staleTweet, freshTweet]).published ∧
    ("stale1" ∈ (processTweets plainNet true 70000 70000 ⟨[], some 5⟩
        [staleTweet, freshTweet]).state.lastProcessedIds ↔
      "stale1" ∈ ([] : List String)) :=
  claim1_stale_dropped plainNet true 70000 70000 ⟨[], some 5⟩ [staleTweet, freshTweet]
    staleTweet 5 0 rfl (by decide) rfl (by decide) (by decide)

/-!
### The retry executor (C8)
-/

theorem isErr_error {ε α : Type} (x : Except ε α) (h : isErr x = true) :
    ∃ e, x = Except.error e := by
  cases x with
  | error e => exact ⟨e, rfl⟩
  | ok a => simp [isErr] at h

theorem withRetryGo_succ {ε α : Type} (f : Nat → Except ε α) (attempt rr : Nat)
    (lastE : Option ε) (delays : Nat) :
    withRetryGo f attempt (rr + 1) lastE delays =
      match f attempt with
      | Except.ok a => (Except.ok a, delays)
      | Except.error e =>
        match rr with
        | 0 => (Except.error (some e), delays)
        | r + 1 => withRetryGo f (attempt + 1) (r + 1) (some e) (delays + 1) := by
  rw [withRetryGo.eq_def]

theorem withRetryGo_ok {ε α : Type} (f : Nat → Except ε α) (v : α) :
    ∀ (j attempt r delays : Nat) (lastE : Option ε),
      (∀ i, attempt ≤ i → i < attempt + j → isErr (f i) = true) →
      f (attempt + j) = Except.ok v → j < r →
      withRetryGo f attempt r lastE delays = (Except.ok v, delays + j) := by
  intro j
  induction j with
  | zero =>
    intro attempt r delays lastE _herr hok hlt
    obtain ⟨rr, rfl⟩ : ∃ rr, r = rr + 1 := ⟨r - 1, by omega⟩
    rw [Nat.add_zero] at hok
    rw [withRetryGo_succ, hok]
    rfl
  | succ j ih =>
    intro attempt r delays lastE herr hok hlt
    obtain ⟨e, he⟩ := isErr_error (f attempt) (herr attempt le_rfl (by omega))
    obtain ⟨rr, rfl⟩ : ∃ rr, r = rr + 2 := ⟨r - 2, by omega⟩
    have hstep : withRetryGo f attempt (rr + 2) lastE delays
        = withRetryGo f (attempt + 1) (rr + 1) (some e) (delays + 1) := by
      rw [withRetryGo_succ, he]
    rw [hstep]
    have hres := ih (attempt + 1) (rr + 1) (delays + 1) (some e)
      (fun i h1 h2 => herr i (by omega) (by omega))
      (by rw [show attempt + 1 + j = attempt + (j + 1) by omega]; exact hok)
      (by omega)
    rw [hres]
    congr 1
    omega

theorem withRetryGo_allfail {ε α : Type} (f : Nat → Except ε α) (e : ε) :
    ∀ (rr attempt delays : Nat) (lastE : Option ε),
      (∀ i, attempt ≤ i → i ≤ attempt + rr → isErr (f i) = true) →
      f (attempt + rr) = Except.error e →
      withRetryGo f attempt (rr + 1) lastE delays
        = (Except.error (some e), delays + rr) := by
  intro rr
  induction rr with
  | zero =>
    intro attempt delays lastE _herr hlast
    rw [Nat.add_zero] at hlast
    rw [withRetryGo_succ, hlast]
    rfl
  | succ rr ih =>
    intro attempt delays lastE herr hlast
    obtain ⟨e0, he0⟩ := isErr_error (f attempt) (herr attempt le_rfl (by omega))
    have hstep : withRetryGo f attempt (rr + 1 + 1) lastE delays
        = withRetryGo f (attempt + 1) (rr + 1) (some e0) (delays + 1) := by
      rw [withRetryGo_succ, he0]
    rw [hstep]
    have hres := ih (attempt + 1) (delays + 1) (some e0)
      (fun i h1 h2 => herr i (by omega) (by omega))
      (by rw [show attempt + 1 + rr = attempt + (rr + 1) by omega]; exact hlast)
    rw [hres]
    congr 1
    omega

/-- C8: the retry executor with budget `N`.  If attempts `1..k-1` fail and
attempt `k ≤ N` succeeds with `v`, it returns `v` after exactly `k-1` delays;
if all `N` attempts fail, it propagates the final attempt's error after
exactly `N-1` delays. -/
theorem claim8_retry_executor {ε α : Type} (f : Nat → Except ε α) (N : Nat) :
    (∀ (k : Nat) (v : α), 1 ≤ k → k ≤ N →
      (∀ i, 1 ≤ i → i < k → isErr (f i) = true) → f k = Except.ok v →
      withRetry f N = (Except.ok v, k - 1)) ∧
    (∀ e : ε, 1 ≤ N → (∀ i, 1 ≤ i → i ≤ N → isErr (f i) = true) →
      f N = Except.error e →
      withRetry f N = (Except.error (some e), N - 1)) := by
  constructor
  · intro k v hk1 hkN herr hok
    have h := withRetryGo_ok f v (k - 1) 1 N 0 none
      (fun i h1 h2 => herr i h1 (by omega))
      (by rw [show 1 + (k - 1) = k by omega]; exact hok)
      (by omega)
    simpa [withRetry] using h
  · intro e hN herr hlast
    obtain ⟨rr, rfl⟩ : ∃ rr, N = rr + 1 := ⟨N - 1, by omega⟩
    have h := withRetryGo_allfail f e rr 1 0 none
      (fun i h1 h2 => herr i h1 (by omega))
      (by rw [show 1 + rr = rr + 1 by omega]; exact hlast)
    simpa [withRetry] using h

/-- An operation that fails on attempts 1 and 2 and succeeds on attempt 3. -/
def retryOkFn : Nat → Except String Nat :=
  fun n => if n < 3 then Except.error "boom" else Except.ok 42

/-- An operation that fails on every attempt. -/
def retryFailFn : Nat → Except String Nat :=
  fun _ => Except.error "dead"

/-- C8 witness: fail-fail-succeed over budget 3 returns the value with 2
delays; fail-fail-fail propagates the last error with 2 delays. -/
theorem claim8_witness :
    withRetry retryOkFn 3 = (Except.ok 42, 2) ∧
    withRetry retryFailFn 3 = (Except.error (some "dead"), 2) := by
  constructor
  · exact (claim8_retry_executor retryOkFn 3).1 3 42 (by decide) (by decide)
      (fun i h1 h2 => by
        have : i = 1 ∨ i = 2 := by omega
        rcases this with rfl | rfl <;> decide)
      rfl
  · exact (claim8_retry_executor retryFailFn 3).2 "dead" (by decide)
      (fun i h1 h2 => rfl) rfl

/-!
### MP4 variant selection (C5)
-/

/-- The bitrate-based selection (`mediaDetails` tier and `extended_entities`
fallback) picks an MP4 variant of the input of maximal bitrate. -/
theorem bestMp4_is_max (vs : List Variant) (v : Variant) (h : bestMp4 vs = some v) :
    (v ∈ vs ∧ v.content_type = some "video/mp4") ∧
    ∀ w ∈ vs, w.content_type = some "video/mp4" →
      w.bitrate.getD 0 ≤ v.bitrate.getD 0 := by
  unfold bestMp4 mp4BitrateSorted at h
  obtain ⟨ys, hys⟩ := List.head?_eq_some_iff.1 h
  have hmemv : v ∈ (vs.filter (fun v2 => v2.content_type == some "video/mp4")) := by
    rw [← List.mem_insertionSort bitrateGe
      (l := vs.filter (fun v2 => v2.content_type == some "video/mp4"))]
    rw [hys]
    exact List.mem_cons_self _ _
  have hvfilter := List.mem_filter.1 hmemv
  refine ⟨⟨hvfilter.1, by simpa using hvfilter.2⟩, ?_⟩
  intro w hw hwct
  have hmemw : w ∈ (vs.filter
      (fun v2 => v2.content_type == some "video/mp4")).insertionSort bitrateGe := by
    rw [List.mem_insertionSort]
    exact List.mem_filter.2 ⟨hw, by simp [hwct]⟩
  rw [hys] at hmemw
  rcases List.mem_cons.1 hmemw with rfl | htail
  · exact le_rfl
  · have hsorted := List.sorted_insertionSort bitrateGe
      (vs.filter (fun v2 => v2.content_type == some "video/mp4"))
    rw [hys] at hsorted
    exact (List.pairwise_cons.1 hsorted).1 w htail

/-- The spec's example variants `[{mp4,100},{mp4,500},{webm,900}]`. -/
def specVarLow : Variant :=
  { url := some "mp4-100", content_type := some "video/mp4", bitrate := some 100 }

def specVarHigh : Variant :=
  { url := some "mp4-500", content_type := some "video/mp4", bitrate := some 500 }

def specVarWebm : Variant :=
  { url := some "webm-900", content_type := some "video/webm", bitrate := some 900 }

def specVariants : List Variant := [specVarLow, specVarHigh, specVarWebm]

/-- Two MP4 variants of the detail-endpoint shape: the lower-bitrate one first. -/
def tier1Low : Variant :=
  { type := some "video/mp4", src := some "low.mp4", bitrate := some 100 }

def tier1High : Variant :=
  { type := some "video/mp4", src := some "high.mp4", bitrate := some 500 }

/-- A detail record whose direct video object carries both MP4 variants. -/
def tier1Detail : DetailedTweet :=
  { video := some ⟨[tier1Low, tier1High]⟩ }

def tier1Net : Net :=
  ⟨fun _ => Except.ok (some tier1Detail), fun u => Except.ok ("cache-" ++ u)⟩

def tier1Tweet : Tweet :=
  { id := "t1vid", user := some {}, created_at := some 50000 }

/-- C5 counterexample: at the direct-video tier the resolver downloads the
FIRST MP4 variant (bitrate 100), not the maximum-bitrate one (bitrate 500) —
so "at every tier ... selects the maximum-bitrate one" is false. -/
theorem claim5_counterexample :
    NetAct.download (some "low.mp4") ∈ (processPost tier1Net tier1Tweet).evs ∧
    NetAct.download (some "high.mp4") ∉ (processPost tier1Net tier1Tweet).evs ∧
    tier1Low.bitrate.getD 0 < tier1High.bitrate.getD 0 := by
  refine ⟨?_, ?_, ?_⟩ <;> decide

/-- C5 (as amended): the `mediaDetails` tier and the `extended_entities`
fallback tier filter to MP4 content type and select a maximum-bitrate
variant (absent bitrate = 0) — on the spec's example
`[{mp4,100},{mp4,500},{webm,900}]` the bitrate-500 MP4 is selected — while
the direct-video and parent-video tiers instead take the first variant whose
type is `video/mp4` or whose `src` ends in `.mp4`, ignoring bitrate. -/
theorem claim5_mp4_selection (vs : List Variant) (v : Variant)
    (h : bestMp4 vs = some v) :
    ((v ∈ vs ∧ v.content_type = some "video/mp4") ∧
      ∀ w ∈ vs, w.content_type = some "video/mp4" →
        w.bitrate.getD 0 ≤ v.bitrate.getD 0) ∧
    bestMp4 specVariants = some specVarHigh ∧
    findMp4Variant [tier1Low, tier1High] = some tier1Low := by
  exact ⟨bestMp4_is_max vs v h, by decide, by decide⟩

/-- C5 witness: the amended selection theorem applied to the spec's example
variants. -/
theorem claim5_witness :
    specVarHigh ∈ specVariants ∧ specVarHigh.content_type = some "video/mp4" ∧
    specVarWebm.bitrate.getD 0 = 900 ∧
    specVarLow.bitrate.getD 0 ≤ specVarHigh.bitrate.getD 0 := by
  have h := claim5_mp4_selection specVariants specVarHigh (by decide)
  exact ⟨h.1.1.1, h.1.1.2, rfl, h.1.2 specVarLow (by decide) (by decide)⟩

/-!
### Frame and guard lemmas for the media cascade (C6, C7)
-/

theorem seqStep_ms (s : Step) (f : MediaState → Step) :
    (seqStep s f).ms = if s.thrown then s.ms else (f s.ms).ms := by
  unfold seqStep
  split <;> rfl

theorem tier1_img (net : Net) (id : String) (d : DetailedTweet) (ms : MediaState) :
    (tier1DirectVideo net id d ms).ms.hasFoundImage = ms.hasFoundImage := by
  simp only [tier1DirectVideo]
  repeat' split
  all_goals simp [pureStep]

theorem tier1_imgUrl (net : Net) (id : String) (d : DetailedTweet) (ms : MediaState) :
    (tier1DirectVideo net id d ms).ms.imageUrl = ms.imageUrl := by
  simp only [tier1DirectVideo]
  repeat' split
  all_goals simp [pureStep]

theorem tier2_img (net : Net) (id : String) (d : DetailedTweet) (ms : MediaState) :
    (tier2ParentVideo net id d ms).ms.hasFoundImage = ms.hasFoundImage := by
  simp only [tier2ParentVideo]
  repeat' split
  all_goals simp [pureStep]

theorem tier2_imgUrl (net : Net) (id : String) (d : DetailedTweet) (ms : MediaState) :
    (tier2ParentVideo net id d ms).ms.imageUrl = ms.imageUrl := by
  simp only [tier2ParentVideo]
  repeat' split
  all_goals simp [pureStep]

theorem tier3Loop_img (net : Net) (id : String) :
    ∀ (mds : List MediaDetailEntry) (ms : MediaState),
      (tier3Loop net id mds ms).ms.hasFoundImage = ms.hasFoundImage := by
  intro mds
  induction mds with
  | nil => intro ms; simp [tier3Loop, pureStep]
  | cons m rest ih =>
    intro ms
    simp only [tier3Loop]
    repeat' split
    all_goals simp [pureStep, ih]

theorem tier3Loop_imgUrl (net : Net) (id : String) :
    ∀ (mds : List MediaDetailEntry) (ms : MediaState),
      (tier3Loop net id mds ms).ms.imageUrl = ms.imageUrl := by
  intro mds
  induction mds with
  | nil => intro ms; simp [tier3Loop, pureStep]
  | cons m rest ih =>
    intro ms
    simp only [tier3Loop]
    repeat' split
    all_goals simp [pureStep, ih]

theorem tier3_img (net : Net) (id : String) (d : DetailedTweet) (ms : MediaState) :
    (tier3MediaDetails net id d ms).ms.hasFoundImage = ms.hasFoundImage := by
  simp only [tier3MediaDetails]
  repeat' split
  all_goals simp [pureStep, tier3Loop_img]

theorem tier3_imgUrl (net : Net) (id : String) (d : DetailedTweet) (ms : MediaState) :
    (tier3MediaDetails net id d ms).ms.imageUrl = ms.imageUrl := by
  simp only [tier3MediaDetails]
  repeat' split
  all_goals simp [pureStep, tier3Loop_imgUrl]

theorem photosLoop_vid (total : Nat) :
    ∀ (ps : List Photo) (ms : MediaState),
      (photosLoop total ps ms).hasFoundVideo = ms.hasFoundVideo := by
  intro ps
  induction ps with
  | nil => intro ms; simp [photosLoop]
  | cons p rest ih =>
    intro ms
    simp only [photosLoop]
    repeat' split
    all_goals simp [ih]

theorem mdpl_vid (total : Nat) :
    ∀ (mds : List MediaDetailEntry) (ms : MediaState),
      (mediaDetailsPhotoLoop total mds ms).hasFoundVideo = ms.hasFoundVideo := by
  intro mds
  induction mds with
  | nil => intro ms; simp [mediaDetailsPhotoLoop]
  | cons m rest ih =>
    intro ms
    simp only [mediaDetailsPhotoLoop]
    repeat' split
    all_goals simp [ih]

theorem dpfmd_vid (d : DetailedTweet) (ms : MediaState) :
    (detailPhotoFromMediaDetails d ms).hasFoundVideo = ms.hasFoundVideo := by
  simp only [detailPhotoFromMediaDetails]
  repeat' split
  all_goals simp [mdpl_vid]

theorem dps_vid (d : DetailedTweet) (ms : MediaState) :
    (detailPhotoSection d ms).hasFoundVideo = ms.hasFoundVideo := by
  simp only [detailPhotoSection]
  repeat' split
  all_goals simp [photosLoop_vid, dpfmd_vid]

theorem dps_of_video (d : DetailedTweet) (ms : MediaState)
    (h : ms.hasFoundVideo = true) : detailPhotoSection d ms = ms := by
  simp [detailPhotoSection, h]

/-- The invariant "no image flag implies no image URL", preserved by every
stage of the cascade. -/
def NoGhostImage (ms : MediaState) : Prop :=
  ms.hasFoundImage = false → ms.imageUrl = none

theorem photosLoop_ghost (total : Nat) :
    ∀ (ps : List Photo) (ms : MediaState), NoGhostImage ms →
      NoGhostImage (photosLoop total ps ms) := by
  intro ps
  induction ps with
  | nil => intro ms h; simpa [photosLoop] using h
  | cons p rest ih =>
    intro ms h
    simp only [photosLoop]
    repeat' split
    all_goals first
      | exact ih ms h
      | (intro hfalse; simp at hfalse)
      | exact h

theorem mdpl_ghost (total : Nat) :
    ∀ (mds : List MediaDetailEntry) (ms : MediaState), NoGhostImage ms →
      NoGhostImage (mediaDetailsPhotoLoop total mds ms) := by
  intro mds
  induction mds with
  | nil => intro ms h; simpa [mediaDetailsPhotoLoop] using h
  | cons m rest ih =>
    intro ms h
    simp only [mediaDetailsPhotoLoop]
    repeat' split
    all_goals first
      | exact ih ms h
      | (intro hfalse; simp at hfalse)
      | exact h

theorem dpfmd_ghost (d : DetailedTweet) (ms : MediaState) (h : NoGhostImage ms) :
    NoGhostImage (detailPhotoFromMediaDetails d ms) := by
  simp only [detailPhotoFromMediaDetails]
  repeat' split
  all_goals first
    | exact mdpl_ghost _ _ ms h
    | exact h

theorem dps_ghost (d : DetailedTweet) (ms : MediaState) (h : NoGhostImage ms) :
    NoGhostImage (detailPhotoSection d ms) := by
  simp only [detailPhotoSection]
  repeat' split
  all_goals first
    | exact photosLoop_ghost _ _ ms h
    | exact dpfmd_ghost d ms h
    | exact h

/-- Through the three video tiers of the detail block, the image fields are
untouched. -/
theorem tiers_img (net : Net) (id : String) (d : DetailedTweet) (ms : MediaState) :
    (seqStep (seqStep (tier1DirectVideo net id d ms) (tier2ParentVideo net id d))
        (tier3MediaDetails net id d)).ms.hasFoundImage = ms.hasFoundImage ∧
    (seqStep (seqStep (tier1DirectVideo net id d ms) (tier2ParentVideo net id d))
        (tier3MediaDetails net id d)).ms.imageUrl = ms.imageUrl := by
  have h2 : (seqStep (tier1DirectVideo net id d ms) (tier2ParentVideo net id d)).ms.hasFoundImage
      = ms.hasFoundImage := by
    rw [seqStep_ms]
    split
    · exact tier1_img net id d ms
    · rw [tier2_img, tier1_img]
  have h2u : (seqStep (tier1DirectVideo net id d ms) (tier2ParentVideo net id d)).ms.imageUrl
      = ms.imageUrl := by
    rw [seqStep_ms]
    split
    · exact tier1_imgUrl net id d ms
    · rw [tier2_imgUrl, tier1_imgUrl]
  constructor
  · rw [seqStep_ms]
    split
    · exact h2
    · rw [tier3_img, h2]
  · rw [seqStep_ms]
    split
    · exact h2u
    · rw [tier3_imgUrl, h2u]

/-- If the detail block found a video, it never touched the image fields. -/
theorem detailBody_video_image (net : Net) (id : String) (d : DetailedTweet)
    (ms : MediaState) (h : (detailBody net id d ms).ms.hasFoundVideo = true) :
    (detailBody net id d ms).ms.hasFoundImage = ms.hasFoundImage ∧
    (detailBody net id d ms).ms.imageUrl = ms.imageUrl := by
  have htiers := tiers_img net id d ms
  unfold detailBody at h ⊢
  set s123 := seqStep (seqStep (tier1DirectVideo net id d ms)
    (tier2ParentVideo net id d)) (tier3MediaDetails net id d) with hs123
  rw [seqStep_ms] at h ⊢
  by_cases hthr : s123.thrown = true
  · rw [if_pos hthr]
    exact htiers
  · rw [if_neg hthr] at h ⊢
    simp only [pureStep] at h ⊢
    by_cases hv : s123.ms.hasFoundVideo = true
    · rw [dps_of_video _ _ hv]
      exact htiers
    · exfalso
      rw [dps_vid] at h
      exact hv h

/-- The detail block preserves the no-ghost-image invariant. -/
theorem detailBody_ghost (net : Net) (id : String) (d : DetailedTweet)
    (ms : MediaState) (h : NoGhostImage ms) :
    NoGhostImage ((detailBody net id d ms).ms) := by
  have htiers := tiers_img net id d ms
  unfold detailBody
  set s123 := seqStep (seqStep (tier1DirectVideo net id d ms)
    (tier2ParentVideo net id d)) (tier3MediaDetails net id d) with hs123
  have htiersGhost : NoGhostImage s123.ms := by
    intro hfalse
    rw [htiers.2]
    exact h (by rw [← htiers.1]; exact hfalse)
  rw [seqStep_ms]
  split
  · exact htiersGhost
  · simp only [pureStep]
    exact dps_ghost d _ htiersGhost

theorem detailBlock_video_image (net : Net) (id : String) (ms : MediaState)
    (h : (detailBlock net id ms).1.hasFoundVideo = true) :
    (detailBlock net id ms).1.hasFoundImage = ms.hasFoundImage ∧
    (detailBlock net id ms).1.imageUrl = ms.imageUrl := by
  unfold detailBlock at h ⊢
  split at h <;> simp_all
  exact detailBody_video_image net id _ ms h

theorem detailBlock_ghost (net : Net) (id : String) (ms : MediaState)
    (h : NoGhostImage ms) : NoGhostImage ((detailBlock net id ms).1) := by
  unfold detailBlock
  split <;> simp_all
  exact detailBody_ghost net id _ ms h

theorem extVid_img (net : Net) (id : String) (ems : List MediaEntity) (ms : MediaState) :
    (extendedVideoAttempt net id ems ms).1.hasFoundImage = ms.hasFoundImage := by
  simp only [extendedVideoAttempt]
  repeat' split
  all_goals simp

theorem extVid_imgUrl (net : Net) (id : String) (ems : List MediaEntity) (ms : MediaState) :
    (extendedVideoAttempt net id ems ms).1.imageUrl = ms.imageUrl := by
  simp only [extendedVideoAttempt]
  repeat' split
  all_goals simp

theorem extImg_vid (ems : List MediaEntity) (ms : MediaState) :
    (extendedImageAttempt ems ms).hasFoundVideo = ms.hasFoundVideo := by
  simp only [extendedImageAttempt]
  repeat' split
  all_goals simp

theorem extImg_of_video (ems : List MediaEntity) (ms : MediaState)
    (h : ms.hasFoundVideo = true) : extendedImageAttempt ems ms = ms := by
  simp [extendedImageAttempt, h]

theorem entities_vid (t : Tweet) (ms : MediaState) :
    (entitiesSection t ms).hasFoundVideo = ms.hasFoundVideo := by
  simp only [entitiesSection]
  repeat' split
  all_goals simp_all

theorem entities_of_video (t : Tweet) (ms : MediaState)
    (h : ms.hasFoundVideo = true) : entitiesSection t ms = ms := by
  simp [entitiesSection, h]

theorem attach_vid (t : Tweet) (ms : MediaState) :
    (attachmentsNote t ms).hasFoundVideo = ms.hasFoundVideo := by
  simp only [attachmentsNote]
  repeat' split
  all_goals simp

theorem attach_img (t : Tweet) (ms : MediaState) :
    (attachmentsNote t ms).hasFoundImage = ms.hasFoundImage := by
  simp only [attachmentsNote]
  repeat' split
  all_goals simp

theorem attach_imgUrl (t : Tweet) (ms : MediaState) :
    (attachmentsNote t ms).imageUrl = ms.imageUrl := by
  simp only [attachmentsNote]
  repeat' split
  all_goals simp

/-- If the extended-entities stage ends with a video found, its image fields
are those of its input. -/
theorem ees_video_image (net : Net) (t : Tweet) (ms : MediaState)
    (h : (extendedEntitiesStage net t ms).1.hasFoundVideo = true) :
    (extendedEntitiesStage net t ms).1.hasFoundImage = ms.hasFoundImage ∧
    (extendedEntitiesStage net t ms).1.imageUrl = ms.imageUrl := by
  unfold extendedEntitiesStage at h ⊢
  repeat' split at h
  all_goals simp_all
  rename_i ee hee ems hems hne
  have hvid : (extendedVideoAttempt net t.id ems ms).1.hasFoundVideo = true := by
    rw [← extImg_vid ems (extendedVideoAttempt net t.id ems ms).1]
    exact h
  rw [extImg_of_video ems _ hvid]
  exact ⟨extVid_img net t.id ems ms, extVid_imgUrl net t.id ems ms⟩

/-- C6: whenever the resolver attaches a video, it never attaches an image:
the final media state has no image flag and no image URL. -/
theorem claim6_video_beats_image (net : Net) (t : Tweet)
    (h : (processPost net t).ms.hasFoundVideo = true) :
    (processPost net t).ms.hasFoundImage = false ∧
    (processPost net t).ms.imageUrl = none := by
  cases hu : t.user with
  | none =>
    rw [processPost_user_none net t hu] at h
    simp at h
  | some u =>
    have hms : (processPost net t).ms
        = attachmentsNote t ((fallbackSection net t ((detailBlock net t.id {}).1)).1) := by
      simp [processPost, hu]
    rw [hms] at h ⊢
    rw [attach_vid] at h
    rw [attach_img, attach_imgUrl]
    set A := (detailBlock net t.id ({} : MediaState)).1 with hA
    have hAghost : NoGhostImage A := detailBlock_ghost net t.id {} (fun _ => rfl)
    by_cases hg : (A.hasFoundImage || A.hasFoundVideo) = true
    · have hfb : fallbackSection net t A = (A, []) := by
        simp only [fallbackSection]
        rw [if_pos hg]
      rw [hfb] at h ⊢
      have himg := detailBlock_video_image net t.id {} (by rw [← hA]; exact h)
      rw [← hA] at himg
      simpa using himg
    · have hgi : A.hasFoundImage = false := by
        cases ha : A.hasFoundImage <;> simp_all
      have hgv : A.hasFoundVideo = false := by
        cases hb : A.hasFoundVideo <;> simp_all
      have hfb : (fallbackSection net t A).1
          = entitiesSection t ((extendedEntitiesStage net t A).1) := by
        simp only [fallbackSection]
        rw [if_neg (by simp [hgi, hgv])]
      rw [hfb] at h ⊢
      rw [entities_vid] at h
      rw [entities_of_video t _ h]
      have hin := ees_video_image net t A h
      rw [hin.1, hin.2, hgi]
      exact ⟨rfl, hAghost hgi⟩

/-- A detail record with a direct MP4 video and a high-quality photo. -/
def bothDetail : DetailedTweet :=
  { video := some ⟨[{ type := some "video/mp4", src := some "vid.mp4" }]⟩,
    photos := some [{ url := some "pics/media/abc.jpg" }] }

def bothNet : Net :=
  ⟨fun _ => Except.ok (some bothDetail), fun u => Except.ok ("cache-" ++ u)⟩

def bothTweet : Tweet :=
  { id := "both1", user := some {}, created_at := some 50000 }

/-- C6 witness: a post whose detail record has both a resolvable video and a
resolvable photo gets the video and no image. -/
theorem claim6_witness :
    (processPost bothNet bothTweet).ms.hasFoundVideo = true ∧
    (processPost bothNet bothTweet).ms.hasFoundImage = false ∧
    (processPost bothNet bothTweet).ms.imageUrl = none := by
  have h := claim6_video_beats_image bothNet bothTweet (by decide)
  exact ⟨by decide, h.1, h.2⟩

/-!
### Download failure falls through to image resolution (C7)
-/

theorem tier1_vid_fail {net : Net} (hfail : ∀ u, net.download u = Except.error ())
    (id : String) (d : DetailedTweet) (ms : MediaState) :
    (tier1DirectVideo net id d ms).ms.hasFoundVideo = ms.hasFoundVideo := by
  simp only [tier1DirectVideo]
  repeat' split
  all_goals simp_all [pureStep, doDownload_fail hfail]

theorem tier2_vid_fail {net : Net} (hfail : ∀ u, net.download u = Except.error ())
    (id : String) (d : DetailedTweet) (ms : MediaState) :
    (tier2ParentVideo net id d ms).ms.hasFoundVideo = ms.hasFoundVideo := by
  simp only [tier2ParentVideo]
  repeat' split
  all_goals simp_all [pureStep, doDownload_fail hfail]

theorem tier3Loop_vid_fail {net : Net} (hfail : ∀ u, net.download u = Except.error ())
    (id : String) : ∀ (mds : List MediaDetailEntry) (ms : MediaState),
      (tier3Loop net id mds ms).ms.hasFoundVideo = ms.hasFoundVideo := by
  intro mds
  induction mds with
  | nil => intro ms; simp [tier3Loop, pureStep]
  | cons m rest ih =>
    intro ms
    simp only [tier3Loop]
    repeat' split
    all_goals simp_all [pureStep, doDownload_fail hfail]

theorem tier3_vid_fail {net : Net} (hfail : ∀ u, net.download u = Except.error ())
    (id : String) (d : DetailedTweet) (ms : MediaState) :
    (tier3MediaDetails net id d ms).ms.hasFoundVideo = ms.hasFoundVideo := by
  simp only [tier3MediaDetails]
  repeat' split
  all_goals simp_all [pureStep, tier3Loop_vid_fail hfail]

theorem detailBody_vid_fail {net : Net} (hfail : ∀ u, net.download u = Except.error ())
    (id : String) (d : DetailedTweet) (ms : MediaState) :
    (detailBody net id d ms).ms.hasFoundVideo = ms.hasFoundVideo := by
  have h1 := tier1_vid_fail hfail id d ms
  have h12 : (seqStep (tier1DirectVideo net id d ms)
      (tier2ParentVideo net id d)).ms.hasFoundVideo = ms.hasFoundVideo := by
    rw [seqStep_ms]
    split
    · exact h1
    · rw [tier2_vid_fail hfail, h1]
  have h123 : (seqStep (seqStep (tier1DirectVideo net id d ms)
      (tier2ParentVideo net id d)) (tier3MediaDetails net id d)).ms.hasFoundVideo
      = ms.hasFoundVideo := by
    rw [seqStep_ms]
    split
    · exact h12
    · rw [tier3_vid_fail hfail, h12]
  unfold detailBody
  rw [seqStep_ms]
  split
  · exact h123
  · simp only [pureStep]
    rw [dps_vid]
    exact h123

theorem detailBlock_vid_fail {net : Net} (hfail : ∀ u, net.download u = Except.error ())
    (id : String) (ms : MediaState) :
    (detailBlock net id ms).1.hasFoundVideo = ms.hasFoundVideo := by
  unfold detailBlock
  split <;> simp_all
  exact detailBody_vid_fail hfail id _ ms

theorem extVid_vid_fail {net : Net} (hfail : ∀ u, net.download u = Except.error ())
    (id : String) (ems : List MediaEntity) (ms : MediaState) :
    (extendedVideoAttempt net id ems ms).1.hasFoundVideo = ms.hasFoundVideo := by
  simp only [extendedVideoAttempt]
  repeat' split
  all_goals simp_all [doDownload_fail hfail]

theorem ees_vid_fail {net : Net} (hfail : ∀ u, net.download u = Except.error ())
    (t : Tweet) (ms : MediaState) :
    (extendedEntitiesStage net t ms).1.hasFoundVideo = ms.hasFoundVideo := by
  unfold extendedEntitiesStage
  repeat' split
  all_goals simp_all [extImg_vid, extVid_vid_fail hfail]

/-- A detail record carrying only a direct MP4 video. -/
def c7Detail : DetailedTweet :=
  { video := some ⟨[{ type := some "video/mp4", src := some "vid.mp4" }]⟩ }

/-- A network oracle that returns `c7Detail` and fails every download. -/
def failAllNet : Net :=
  ⟨fun _ => Except.ok (some c7Detail), fun _ => Except.error ()⟩

/-- A post with a fallback image in its `extended_entities`. -/
def c7Tweet : Tweet :=
  { id := "c7post", user := some {}, created_at := some 50000,
    extended_entities := some
      { media := some [{ type := some "photo", media_url_https := some "fallback.jpg" }] } }

/-- C7: when every media download fails (after retries), the failure is
swallowed: no video is attached, the post is still processed to the send
stage whenever it has a user, and — as the concrete fixture shows — the
cascade still falls through to image resolution. -/
theorem claim7_download_failure_falls_back (net : Net) (t : Tweet)
    (hfail : ∀ u, net.download u = Except.error ()) :
    (processPost net t).ms.hasFoundVideo = false ∧
    (processPost net t).sent = t.user.isSome ∧
    (processPost failAllNet c7Tweet).ms.imageUrl = some "fallback.jpg" ∧
    (processPost failAllNet c7Tweet).ms.hasFoundImage = true := by
  refine ⟨?_, processPost_sent net t, by decide, by decide⟩
  cases hu : t.user with
  | none => rw [processPost_user_none net t hu]
  | some u =>
    have hms : (processPost net t).ms
        = attachmentsNote t ((fallbackSection net t ((detailBlock net t.id {}).1)).1) := by
      simp [processPost, hu]
    rw [hms, attach_vid]
    have hA : (detailBlock net t.id ({} : MediaState)).1.hasFoundVideo = false :=
      detailBlock_vid_fail hfail t.id {}
    unfold fallbackSection
    split
    · exact hA
    · rw [entities_vid, ees_vid_fail hfail, hA]

/-- C7 witness: the concrete fixture — detail has an MP4 video, every
download fails, and the raw post carries a fallback image that IS attached. -/
theorem claim7_witness :
    (processPost failAllNet c7Tweet).ms.hasFoundVideo = false ∧
    (processPost failAllNet c7Tweet).sent = true ∧
    (processPost failAllNet c7Tweet).ms.imageUrl = some "fallback.jpg" := by
  have h := claim7_download_failure_falls_back failAllNet c7Tweet (fun u => rfl)
  exact ⟨h.1, by rw [h.2.1]; rfl, h.2.2.1⟩

end TwitterBot
